import Mathlib

/-!
# Verification of the Swiss tournament pairing engine (`src/app.py`)

Shallow embedding of the pairing engine: the `Player` data model, rank
assignment (`update_ranks`), bye allocation for late joiners and odd pools,
greedy opponent matching (`find_best_opponent`), colour assignment
(`assign_colors`), and the JSON loading/validation layer
(`Tournament.load_from_json` together with the error mapping performed by the
`/pairings` endpoint).

Modelling conventions:
* Python `float` scores are modelled as exact rationals (`Rat`); the program
  only adds halves and compares, so no rounding behaviour is relevant.
* Python's stable `list.sort(key=...)` is modelled by Mathlib's stable
  `List.insertionSort` with the corresponding total preorder.
* Python exceptions are modelled with `Except`:
  `ValueError` / `KeyError` / `TypeError` for the loading layer, and the
  engine's `raise Exception(f"No valid opponent found for player {id}")` as an
  `Except.error` carrying the anchor's id.
* In-place mutation of the `has_bye` flag during a pairing computation is
  modelled by also returning the list of ids whose flag is set to `True`,
  in the order the mutations happen.
* `list.remove` on dataclass instances removes the first structurally equal
  element; this is `List.erase` with the derived `DecidableEq`.
-/

namespace Swiss

/-- The `Player` dataclass of `src/app.py` (identity, rating, score,
histories, rank and bye flag).  The derived fields `color_balance` and
`preferred_color` are recomputed from `color_history` whenever a player is
constructed and are therefore modelled as functions below. -/
structure Player where
  id : String
  rating : Int
  score : Rat
  color_history : List String
  opponents : List String
  rank : Nat
  has_bye : Bool
deriving DecidableEq

/-- `Player.calculate_color_balance`: whites minus blacks in the colour
history. -/
def Player.color_balance (p : Player) : Int :=
  (p.color_history.count "white" : Int) - (p.color_history.count "black" : Int)

/-- The `Pairing` dataclass: white id, black id and the bye flag. -/
structure Pairing where
  white : String
  black : String
  is_bye : Bool
deriving DecidableEq

/-- `Pairing.__init__`: `black` defaults to `""` and
`is_bye = (black == "" or black == "0")`. -/
def Pairing.init (white : String) (black : String := "") : Pairing :=
  { white := white, black := black, is_bye := black == "" || black == "0" }

/-! ## Ranking (`Tournament.update_ranks`) -/

/-- The total preorder used by `update_ranks`:
Python sorts ascending by the key `(-score, -rating)`, i.e. score descending
then rating descending. -/
def rankRel (p q : Player) : Prop :=
  q.score < p.score ∨ (p.score = q.score ∧ q.rating ≤ p.rating)

instance : DecidableRel rankRel := fun p q =>
  inferInstanceAs (Decidable (q.score < p.score ∨ (p.score = q.score ∧ q.rating ≤ p.rating)))

instance : IsTotal Player rankRel where
  total p q := by
    unfold rankRel
    rcases lt_trichotomy p.score q.score with h | h | h
    · exact Or.inr (Or.inl h)
    · rcases le_total q.rating p.rating with hr | hr
      · exact Or.inl (Or.inr ⟨h, hr⟩)
      · exact Or.inr (Or.inr ⟨h.symm, hr⟩)
    · exact Or.inl (Or.inl h)

instance : IsTrans Player rankRel where
  trans p q s hpq hqs := by
    unfold rankRel at *
    rcases hpq with h1 | ⟨h1, h1r⟩
    · rcases hqs with h2 | ⟨h2, _⟩
      · exact Or.inl (h2.trans h1)
      · exact Or.inl (h2 ▸ h1)
    · rcases hqs with h2 | ⟨h2, h2r⟩
      · exact Or.inl (h1 ▸ h2)
      · exact Or.inr ⟨h1.trans h2, h2r.trans h1r⟩

/-- The rank-assignment loop `for i, player in enumerate(self.players):
player.rank = i + 1`, started at `n = 1`. -/
def assignRanks : Nat → List Player → List Player
  | _, [] => []
  | n, p :: ps => { p with rank := n } :: assignRanks (n + 1) ps

/-- `Tournament.update_ranks`: stable-sort the players by score descending
then rating descending, then assign ranks `1, 2, …` in order. -/
def update_ranks (players : List Player) : List Player :=
  assignRanks 1 (players.insertionSort rankRel)

/-! ## The pairing engine (`SwissPairingEngine`) -/

/-- `max(len(p.color_history) for p in players)` with the source's guard
returning `0` for an empty list. -/
def maxGames (players : List Player) : Nat :=
  (players.map (fun p => p.color_history.length)).foldl max 0

/-- Python's `max(players, key=f)`: the first element attaining the maximal
key (`none` on an empty list, where Python raises `ValueError`). -/
def pyMaxBy (f : Player → Nat) : List Player → Option Player
  | [] => none
  | p :: ps => some (ps.foldl (fun cur q => if f cur < f q then q else cur) p)

/-- `SwissPairingEngine.select_bye_player`: the worst-ranked (numerically
largest rank) player who has not had a bye yet, or the worst-ranked player
overall if all of them have. -/
def select_bye_player (players : List Player) : Option Player :=
  let no_bye_players := players.filter (fun p => !p.has_bye)
  if no_bye_players.isEmpty then pyMaxBy Player.rank players
  else pyMaxBy Player.rank no_bye_players

/-- The score-proximity preorder used by `find_best_opponent`'s
`valid_opponents.sort(key=lambda p: abs(p.score - player.score))`. -/
def scoreRel (a : Player) (p q : Player) : Prop :=
  |p.score - a.score| ≤ |q.score - a.score|

instance (a : Player) : DecidableRel (scoreRel a) := fun p q =>
  inferInstanceAs (Decidable (|p.score - a.score| ≤ |q.score - a.score|))

instance (a : Player) : IsTotal Player (scoreRel a) where
  total _ _ := le_total _ _

instance (a : Player) : IsTrans Player (scoreRel a) where
  trans _ _ _ h1 h2 := le_trans h1 h2

/-- `valid_opponents = [p for p in candidates if p.id not in player.opponents]`. -/
def valid_opponents (player : Player) (candidates : List Player) : List Player :=
  candidates.filter (fun p => !(player.opponents.contains p.id))

/-- The candidate set after the rematch fallback: all of `candidates` when
the exclusion emptied `valid_opponents`. -/
def allowed_opponents (player : Player) (candidates : List Player) : List Player :=
  if (valid_opponents player candidates).isEmpty then candidates
  else valid_opponents player candidates

/-- `SwissPairingEngine.find_best_opponent`: stable-sort the candidate set by
absolute score difference and take the first element (`None` when the set is
empty). -/
def find_best_opponent (player : Player) (candidates : List Player) : Option Player :=
  if (allowed_opponents player candidates).isEmpty then none
  else ((allowed_opponents player candidates).insertionSort (scoreRel player)).head?

/-- `SwissPairingEngine.assign_colors`: the player with the strictly greater
colour balance gets black; on equal balances the higher-rated player gets
white, with the anchor `player1` winning exact ties.  The returned pair is
`(white, black)`. -/
def assign_colors (player1 player2 : Player) : Player × Player :=
  if player2.color_balance < player1.color_balance then (player2, player1)
  else if player1.color_balance < player2.color_balance then (player1, player2)
  else if player2.rating ≤ player1.rating then (player1, player2)
  else (player2, player1)

/-- The matching loop of `compute_pairings`
(`while len(available_players) >= 2: …`): pop the first player, find its best
opponent, remove it, assign colours and emit the pairing.  The `.error`
result models `raise Exception(f"No valid opponent found for player {id}")`
and carries the anchor's id. -/
def matchLoop : List Player → Except String (List Pairing)
  | [] => .ok []
  | [_] => .ok []
  | p1 :: p2 :: rest =>
    match find_best_opponent p1 (p2 :: rest) with
    | none => .error p1.id
    | some pb =>
      let wb := assign_colors p1 pb
      match matchLoop ((p2 :: rest).erase pb) with
      | .error e => .error e
      | .ok prs => .ok (Pairing.init wb.1.id wb.2.id :: prs)
termination_by pool => pool.length
decreasing_by
  simp only [List.length_cons]
  have h := List.length_erase_le pb (p2 :: rest)
  simp only [List.length_cons] at h
  omega

/-- The late joiners of a snapshot: players with strictly fewer games played
than the maximum, in snapshot (rank) order. -/
def lateOf (players : List Player) : List Player :=
  players.filter (fun p => decide (p.color_history.length < maxGames players))

/-- The matching pool after removing the late joiners. -/
def poolOf (players : List Player) : List Player :=
  players.filter (fun p => !decide (p.color_history.length < maxGames players))

/-- `SwissPairingEngine.compute_pairings`.  Returns the emitted pairings
(late-joiner byes, then the odd-pool bye if any, then the decided pairs)
together with the ids whose `has_bye` flag the engine sets to `True`, in
mutation order.  `.error` models an uncaught exception. -/
def compute_pairings (players : List Player) : Except String (List Pairing × List String) :=
  let late_joiners := lateOf players
  let pool := poolOf players
  let latePairings := late_joiners.map (fun p => Pairing.init p.id)
  let lateFlags := late_joiners.map Player.id
  if pool.length % 2 == 1 then
    match select_bye_player pool with
    | none => .error "max() arg is an empty sequence"
    | some bye_player =>
      match matchLoop (pool.erase bye_player) with
      | .error e => .error e
      | .ok prs =>
        .ok (latePairings ++ Pairing.init bye_player.id :: prs, lateFlags ++ [bye_player.id])
  else
    match matchLoop pool with
    | .error e => .error e
    | .ok prs => .ok (latePairings ++ prs, lateFlags)

/-- The ids a `Pairing` accounts for: the bye subject's white id for a bye,
white and black for a decided pairing. -/
def occIds (pr : Pairing) : List String :=
  if pr.is_bye then [pr.white] else [pr.white, pr.black]

/-- A player with its (mutable, reassigned) rank field cleared: used to state
that `update_ranks` only permutes the players and rewrites their ranks. -/
def stripRank (p : Player) : Player := { p with rank := 0 }

/-! ## Helper lemmas: rank assignment -/

theorem stripRank_setRank (p : Player) (n : Nat) :
    stripRank { p with rank := n } = stripRank p := rfl

theorem assignRanks_map_stripRank : ∀ (n : Nat) (l : List Player),
    (assignRanks n l).map stripRank = l.map stripRank
  | _, [] => rfl
  | n, p :: ps => by
    simp only [assignRanks, List.map_cons, stripRank_setRank,
      assignRanks_map_stripRank (n + 1) ps]

theorem assignRanks_length : ∀ (n : Nat) (l : List Player),
    (assignRanks n l).length = l.length
  | _, [] => rfl
  | n, _ :: ps => by simp [assignRanks, assignRanks_length (n + 1) ps]

theorem assignRanks_get : ∀ (n : Nat) (l : List Player) (i : Nat)
    (h : i < (assignRanks n l).length) (h' : i < l.length),
    (assignRanks n l).get ⟨i, h⟩ = { l.get ⟨i, h'⟩ with rank := n + i }
  | n, p :: ps, 0, _, _ => rfl
  | n, p :: ps, i + 1, h, h' => by
    simp only [assignRanks, List.get_cons_succ]
    rw [assignRanks_get (n + 1) ps i]
    · simp only [Nat.add_assoc, Nat.add_comm 1 i]
    · exact Nat.lt_of_succ_lt_succ h'

theorem rankRel_setRank (p q : Player) (n m : Nat) :
    rankRel { p with rank := n } { q with rank := m } ↔ rankRel p q := Iff.rfl

theorem assignRanks_pairwise {l : List Player} (n : Nat)
    (h : l.Pairwise rankRel) : (assignRanks n l).Pairwise rankRel := by
  rw [List.pairwise_iff_get] at h ⊢
  intro i j hij
  have hi : (i : Nat) < l.length := assignRanks_length n l ▸ i.isLt
  have hj : (j : Nat) < l.length := assignRanks_length n l ▸ j.isLt
  rw [assignRanks_get n l i i.isLt hi, assignRanks_get n l j j.isLt hj]
  exact (rankRel_setRank _ _ _ _).mpr (h ⟨i, hi⟩ ⟨j, hj⟩ hij)

/-- C10: `update_ranks` sorts the players by score descending, then rating
descending, breaking remaining ties by original input order (stable sort),
and assigns rank `1` to the first player of that order and consecutive
integers thereafter.  The four conjuncts state: the result is the input
players up to permutation and rank reassignment; it is sorted with respect
to the score-then-rating order; ranks are `i + 1` at position `i`; and any
two players that tie on both score and rating keep their input order. -/
theorem update_ranks_spec (players : List Player) :
    ((update_ranks players).map stripRank).Perm (players.map stripRank) ∧
    (update_ranks players).Pairwise rankRel ∧
    (∀ i (h : i < (update_ranks players).length),
        ((update_ranks players).get ⟨i, h⟩).rank = i + 1) ∧
    (∀ p q, [p, q].Sublist players → p.score = q.score → p.rating = q.rating →
        [stripRank p, stripRank q].Sublist ((update_ranks players).map stripRank)) := by
  refine ⟨?_, ?_, ?_, ?_⟩
  · unfold update_ranks
    rw [assignRanks_map_stripRank]
    exact (List.perm_insertionSort rankRel players).map stripRank
  · exact assignRanks_pairwise 1 (List.sorted_insertionSort rankRel players)
  · intro i h
    have h' : i < (players.insertionSort rankRel).length := by
      have h2 := h; unfold update_ranks at h2; rwa [assignRanks_length] at h2
    unfold update_ranks at h ⊢
    rw [assignRanks_get 1 _ i h h']
    simp [Nat.add_comm]
  · intro p q hsub hs hr
    have hrel : rankRel p q := Or.inr ⟨hs, le_of_eq hr.symm⟩
    have h1 : [p, q].Sublist (players.insertionSort rankRel) :=
      List.pair_sublist_insertionSort hrel hsub
    have h2 := h1.map stripRank
    unfold update_ranks
    rwa [assignRanks_map_stripRank]

theorem update_ranks_spec_witness :
    [stripRank { id := "B", rating := 1500, score := 1, color_history := [],
                 opponents := [], rank := 0, has_bye := false },
     stripRank { id := "A", rating := 1500, score := 1, color_history := [],
                 opponents := [], rank := 0, has_bye := false }].Sublist
      ((update_ranks
        [{ id := "B", rating := 1500, score := 1, color_history := [],
           opponents := [], rank := 0, has_bye := false },
         { id := "A", rating := 1500, score := 1, color_history := [],
           opponents := [], rank := 0, has_bye := false }]).map stripRank) :=
  (update_ranks_spec _).2.2.2 _ _ (List.Sublist.refl _) rfl rfl

/-! ## Helper lemmas: bye selection -/

theorem pyMaxBy_go_spec (f : Player → Nat) :
    ∀ (ps : List Player) (cur : Player),
      (ps.foldl (fun cur q => if f cur < f q then q else cur) cur) ∈ cur :: ps ∧
      f cur ≤ f (ps.foldl (fun cur q => if f cur < f q then q else cur) cur) ∧
      ∀ q ∈ ps, f q ≤ f (ps.foldl (fun cur q => if f cur < f q then q else cur) cur)
  | [], cur => ⟨List.mem_cons_self _ _, le_refl _, by simp⟩
  | q :: ps, cur => by
    simp only [List.foldl_cons]
    by_cases hc : f cur < f q
    · rw [if_pos hc]
      obtain ⟨hmem, hle, hall⟩ := pyMaxBy_go_spec f ps q
      refine ⟨List.mem_cons_of_mem _ hmem, le_trans (le_of_lt hc) hle, ?_⟩
      intro r hr
      rcases List.mem_cons.mp hr with h | h
      · exact h ▸ hle
      · exact hall r h
    · rw [if_neg hc]
      obtain ⟨hmem, hle, hall⟩ := pyMaxBy_go_spec f ps cur
      refine ⟨?_, hle, ?_⟩
      · rcases List.mem_cons.mp hmem with h | h
        · exact List.mem_cons.mpr (Or.inl h)
        · exact List.mem_cons_of_mem _ (List.mem_cons_of_mem _ h)
      · intro r hr
        rcases List.mem_cons.mp hr with h | h
        · exact h ▸ le_trans (le_of_not_lt hc) hle
        · exact hall r h

theorem pyMaxBy_spec (f : Player → Nat) (l : List Player) (h : l ≠ []) :
    ∃ m, pyMaxBy f l = some m ∧ m ∈ l ∧ ∀ q ∈ l, f q ≤ f m := by
  cases l with
  | nil => exact absurd rfl h
  | cons p ps =>
    obtain ⟨hmem, hle, hall⟩ := pyMaxBy_go_spec f ps p
    refine ⟨_, rfl, hmem, ?_⟩
    intro q hq
    rcases List.mem_cons.mp hq with h | h
    · exact h ▸ hle
    · exact hall q h

theorem select_bye_player_spec (l : List Player) (h : l ≠ []) :
    ∃ b, select_bye_player l = some b ∧ b ∈ l ∧
      ((∃ p ∈ l, p.has_bye = false) →
        b.has_bye = false ∧ ∀ q ∈ l, q.has_bye = false → q.rank ≤ b.rank) ∧
      ((∀ p ∈ l, p.has_bye = true) → ∀ q ∈ l, q.rank ≤ b.rank) := by
  unfold select_bye_player
  by_cases hnb : (l.filter (fun p => !p.has_bye)).isEmpty
  · obtain ⟨m, hm, hmem, hall⟩ := pyMaxBy_spec Player.rank l h
    simp only [hnb, if_pos]
    refine ⟨m, hm, hmem, ?_, fun _ => hall⟩
    intro ⟨p, hp, hpb⟩
    rw [List.isEmpty_iff] at hnb
    have : p ∈ l.filter (fun p => !p.has_bye) :=
      List.mem_filter.mpr ⟨hp, by simp [hpb]⟩
    rw [hnb] at this
    cases this
  · have hne : l.filter (fun p => !p.has_bye) ≠ [] := by
      intro he; rw [he] at hnb; exact hnb rfl
    obtain ⟨m, hm, hmem, hall⟩ := pyMaxBy_spec Player.rank _ hne
    simp only [hnb, if_neg, if_false]
    have hmem' := List.mem_filter.mp hmem
    refine ⟨m, hm, hmem'.1, ?_, ?_⟩
    · intro _
      refine ⟨by simpa using hmem'.2, ?_⟩
      intro q hq hqb
      exact hall q (List.mem_filter.mpr ⟨hq, by simp [hqb]⟩)
    · intro hbyed
      have := hbyed m hmem'.1
      have h2 := hmem'.2
      simp [this] at h2

/-! ## Helper lemmas: opponent search -/

theorem allowed_opponents_sublist (a : Player) (c : List Player) :
    (allowed_opponents a c).Sublist c := by
  unfold allowed_opponents
  by_cases h : (valid_opponents a c).isEmpty
  · simp only [h, if_pos]; exact List.Sublist.refl c
  · simp only [h, if_neg, if_false]; exact List.filter_sublist c

theorem allowed_opponents_ne_nil (a : Player) (c : List Player) (h : c ≠ []) :
    allowed_opponents a c ≠ [] := by
  unfold allowed_opponents
  by_cases hv : (valid_opponents a c).isEmpty
  · simpa only [hv, if_pos] using h
  · simp only [hv, if_neg, if_false]
    intro he
    rw [List.isEmpty_iff] at hv
    exact hv he

theorem find_best_opponent_spec (a : Player) (c : List Player) (h : c ≠ []) :
    ∃ b, find_best_opponent a c = some b ∧ b ∈ allowed_opponents a c ∧
      ∀ q ∈ allowed_opponents a c, |b.score - a.score| ≤ |q.score - a.score| := by
  have hne := allowed_opponents_ne_nil a c h
  have hperm := List.perm_insertionSort (scoreRel a) (allowed_opponents a c)
  have hsne : (allowed_opponents a c).insertionSort (scoreRel a) ≠ [] := by
    intro he
    have hl := hperm.length_eq
    rw [he] at hl
    exact hne (List.length_eq_zero.mp hl.symm)
  obtain ⟨b, t, hbt⟩ := List.exists_cons_of_ne_nil hsne
  have hfind : find_best_opponent a c = some b := by
    unfold find_best_opponent
    rw [if_neg (by simpa [List.isEmpty_iff] using hne), hbt]
    rfl
  have hsorted := List.sorted_insertionSort (scoreRel a) (allowed_opponents a c)
  rw [hbt] at hsorted hperm
  refine ⟨b, hfind, hperm.mem_iff.mp (List.mem_cons_self b t), ?_⟩
  intro q hq
  rcases List.mem_cons.mp (hperm.mem_iff.mpr hq) with h | h
  · exact h ▸ le_refl _
  · exact (List.pairwise_cons.mp hsorted).1 q h

/-! ## Helper lemmas: colour assignment and the matching loop -/

theorem assign_colors_cases (p1 p2 : Player) :
    assign_colors p1 p2 = (p1, p2) ∨ assign_colors p1 p2 = (p2, p1) := by
  unfold assign_colors
  split_ifs <;> simp

theorem Pairing.init_is_bye_false {w b : String} (h1 : b ≠ "") (h2 : b ≠ "0") :
    (Pairing.init w b).is_bye = false := by
  simp [Pairing.init, h1, h2]

theorem Pairing.init_is_bye_true (w : String) :
    (Pairing.init w).is_bye = true := by
  simp [Pairing.init]

theorem matchLoop_ok : ∀ (pool : List Player), ∃ prs, matchLoop pool = .ok prs
  | [] => ⟨[], by simp [matchLoop]⟩
  | [_] => ⟨[], by simp [matchLoop]⟩
  | p1 :: p2 :: rest => by
    obtain ⟨b, hb, -, -⟩ :=
      find_best_opponent_spec p1 (p2 :: rest) (List.cons_ne_nil _ _)
    obtain ⟨prs, hprs⟩ := matchLoop_ok ((p2 :: rest).erase b)
    exact ⟨Pairing.init (assign_colors p1 b).1.id (assign_colors p1 b).2.id :: prs,
      by simp only [matchLoop, hb, hprs]⟩
termination_by pool => pool.length
decreasing_by
  simp only [List.length_cons]
  have h := List.length_erase_le b (p2 :: rest)
  simp only [List.length_cons] at h
  omega

theorem matchLoop_mem : ∀ (pool : List Player) (prs : List Pairing),
    matchLoop pool = .ok prs →
    ∀ pr ∈ prs, ∃ w b, w ∈ pool ∧ b ∈ pool ∧ pr = Pairing.init w.id b.id
  | [], prs, h => by
    simp only [matchLoop] at h
    cases h
    simp
  | [_], prs, h => by
    simp only [matchLoop] at h
    cases h
    simp
  | p1 :: p2 :: rest, prs, h => by
    obtain ⟨b, hb, hmemA, -⟩ :=
      find_best_opponent_spec p1 (p2 :: rest) (List.cons_ne_nil _ _)
    have hbmem : b ∈ p2 :: rest := (allowed_opponents_sublist _ _).subset hmemA
    simp only [matchLoop, hb] at h
    cases heq : matchLoop ((p2 :: rest).erase b) with
    | error e => rw [heq] at h; cases h
    | ok prs' =>
      rw [heq] at h
      cases h
      intro pr hpr
      rcases List.mem_cons.mp hpr with hh | hh
      · rcases assign_colors_cases p1 b with hc | hc
        · exact ⟨p1, b, List.mem_cons_self _ _, List.mem_cons_of_mem _ hbmem,
            by rw [hh, hc]⟩
        · exact ⟨b, p1, List.mem_cons_of_mem _ hbmem, List.mem_cons_self _ _,
            by rw [hh, hc]⟩
      · obtain ⟨w, bl, hw, hbl, he⟩ := matchLoop_mem _ prs' heq pr hh
        have hsub : ((p2 :: rest).erase b).Sublist (p1 :: p2 :: rest) :=
          (List.erase_sublist _ _).trans (List.sublist_cons_self _ _)
        exact ⟨w, bl, hsub.subset hw, hsub.subset hbl, he⟩
termination_by pool => pool.length
decreasing_by
  simp only [List.length_cons]
  have h := List.length_erase_le b (p2 :: rest)
  simp only [List.length_cons] at h
  omega

theorem matchLoop_spec : ∀ (pool : List Player),
    (∀ p ∈ pool, p.id ≠ "" ∧ p.id ≠ "0") → pool.length % 2 = 0 →
    ∃ prs, matchLoop pool = .ok prs ∧
      (∀ pr ∈ prs, pr.is_bye = false) ∧
      (prs.flatMap occIds).Perm (pool.map Player.id)
  | [], _, _ => ⟨[], by simp [matchLoop], by simp, by simp⟩
  | [_], _, heven => by simp at heven
  | p1 :: p2 :: rest, hids, heven => by
    obtain ⟨b, hb, hmemA, -⟩ :=
      find_best_opponent_spec p1 (p2 :: rest) (List.cons_ne_nil _ _)
    have hbmem : b ∈ p2 :: rest := (allowed_opponents_sublist _ _).subset hmemA
    have hsub : ((p2 :: rest).erase b).Sublist (p1 :: p2 :: rest) :=
      (List.erase_sublist _ _).trans (List.sublist_cons_self _ _)
    have heven' : ((p2 :: rest).erase b).length % 2 = 0 := by
      rw [List.length_erase_of_mem hbmem]
      simp only [List.length_cons] at heven ⊢
      omega
    obtain ⟨prs', hml, hbye, hperm⟩ :=
      matchLoop_spec ((p2 :: rest).erase b) (fun p hp => hids p (hsub.subset hp)) heven'
    have hid1 := hids p1 (List.mem_cons_self _ _)
    have hidb := hids b (List.mem_cons_of_mem _ hbmem)
    have hblack : ((assign_colors p1 b).2.id ≠ "" ∧ (assign_colors p1 b).2.id ≠ "0") := by
      rcases assign_colors_cases p1 b with hc | hc <;> rw [hc]
      · exact hidb
      · exact hid1
    have hbyeF := Pairing.init_is_bye_false (w := (assign_colors p1 b).1.id)
      hblack.1 hblack.2
    refine ⟨Pairing.init (assign_colors p1 b).1.id (assign_colors p1 b).2.id :: prs',
      by simp only [matchLoop, hb, hml], ?_, ?_⟩
    · intro pr hpr
      rcases List.mem_cons.mp hpr with hh | hh
      · rw [hh]; exact hbyeF
      · exact hbye pr hh
    · have hw : (Pairing.init (assign_colors p1 b).1.id (assign_colors p1 b).2.id).white
          = (assign_colors p1 b).1.id := rfl
      have hbl : (Pairing.init (assign_colors p1 b).1.id (assign_colors p1 b).2.id).black
          = (assign_colors p1 b).2.id := rfl
      have hocc : occIds (Pairing.init (assign_colors p1 b).1.id (assign_colors p1 b).2.id)
          = [(assign_colors p1 b).1.id, (assign_colors p1 b).2.id] := by
        simp [occIds, hbyeF, hw, hbl]
      have hmid : ((p2 :: rest).map Player.id).Perm
          (b.id :: ((p2 :: rest).erase b).map Player.id) :=
        (List.perm_cons_erase hbmem).map Player.id
      have hR : ((p1 :: p2 :: rest).map Player.id).Perm
          (p1.id :: b.id :: ((p2 :: rest).erase b).map Player.id) := by
        simp only [List.map_cons]
        exact hmid.cons p1.id
      have hL : ((Pairing.init (assign_colors p1 b).1.id (assign_colors p1 b).2.id :: prs').flatMap
            occIds).Perm
          (p1.id :: b.id :: ((p2 :: rest).erase b).map Player.id) := by
        simp only [List.flatMap_cons, hocc]
        rcases assign_colors_cases p1 b with hc | hc <;> rw [hc]
        · exact (hperm.cons b.id).cons p1.id
        · exact ((hperm.cons p1.id).cons b.id).trans
            (List.Perm.swap p1.id b.id _)
      exact hL.trans hR.symm
termination_by pool => pool.length
decreasing_by
  simp only [List.length_cons]
  have h := List.length_erase_le b (p2 :: rest)
  simp only [List.length_cons] at h
  omega

/-! ## Helper lemmas: `compute_pairings` structure -/

theorem lateOf_poolOf_perm (players : List Player) :
    (lateOf players ++ poolOf players).Perm players :=
  List.filter_append_perm _ players

theorem lateOf_sublist (players : List Player) : (lateOf players).Sublist players :=
  List.filter_sublist players

theorem poolOf_sublist (players : List Player) : (poolOf players).Sublist players :=
  List.filter_sublist players

theorem compute_pairings_even (players : List Player)
    (h : (poolOf players).length % 2 = 0) {prs : List Pairing}
    (hml : matchLoop (poolOf players) = .ok prs) :
    compute_pairings players =
      .ok ((lateOf players).map (fun p => Pairing.init p.id) ++ prs,
           (lateOf players).map Player.id) := by
  unfold compute_pairings
  rw [if_neg (by simp [h])]
  simp only [hml]

theorem compute_pairings_odd (players : List Player)
    (h : (poolOf players).length % 2 = 1) {b : Player} {prs : List Pairing}
    (hsel : select_bye_player (poolOf players) = some b)
    (hml : matchLoop ((poolOf players).erase b) = .ok prs) :
    compute_pairings players =
      .ok ((lateOf players).map (fun p => Pairing.init p.id) ++ Pairing.init b.id :: prs,
           (lateOf players).map Player.id ++ [b.id]) := by
  unfold compute_pairings
  rw [if_pos (by simp [h])]
  simp only [hsel, hml]

theorem occIds_init_bye (w : String) : occIds (Pairing.init w) = [w] := by
  simp [occIds, Pairing.init]

theorem byes_flatMap_occIds (l : List Player) :
    ((l.map (fun p => Pairing.init p.id)).flatMap occIds) = l.map Player.id := by
  induction l with
  | nil => rfl
  | cons p ps ih => simp [occIds_init_bye, ih]

theorem flatMap_occIds_length (prs : List Pairing)
    (h : ∀ pr ∈ prs, pr.is_bye = false) :
    (prs.flatMap occIds).length = 2 * prs.length := by
  induction prs with
  | nil => rfl
  | cons pr prs ih =>
    have hpr := h pr (List.mem_cons_self _ _)
    rw [List.flatMap_cons, List.length_append,
      ih (fun q hq => h q (List.mem_cons_of_mem _ hq))]
    simp [occIds, hpr]
    omega

theorem countP_occ_of_count_flatMap (prs : List Pairing) (x : String)
    (h : (prs.flatMap occIds).count x = 1) :
    prs.countP (fun pr => decide (x ∈ occIds pr)) = 1 := by
  induction prs with
  | nil => simp at h
  | cons pr prs ih =>
    rw [List.flatMap_cons, List.count_append] at h
    rw [List.countP_cons]
    by_cases hx : x ∈ occIds pr
    · have h1 : 0 < (occIds pr).count x := List.count_pos_iff.mpr hx
      have h2 : (prs.flatMap occIds).count x = 0 := by omega
      have h3 : prs.countP (fun pr => decide (x ∈ occIds pr)) = 0 := by
        rw [List.countP_eq_zero]
        intro q hq
        have hnm := List.count_eq_zero.mp h2
        simp only [decide_eq_true_eq]
        intro hmem
        exact hnm (List.mem_flatMap.mpr ⟨q, hq, hmem⟩)
      simp [hx, h3]
    · have h2 : (occIds pr).count x = 0 := List.count_eq_zero.mpr hx
      rw [h2] at h
      simp only [hx, decide_False]
      simpa using ih (by simpa using h)

/-! ## Claim theorems about the engine -/

/-- C1 (amended): for a snapshot with unique player ids none of which is the
empty string or the literal `"0"` (the two values `Pairing.__init__` treats
as "no opponent"), every player id appears in exactly one emitted `Pairing` —
the ids covered by the pairings are a permutation of the snapshot's ids, and
each id satisfies exactly one pairing. -/
theorem coverage_amended (players : List Player)
    (huniq : (players.map Player.id).Nodup)
    (hids : ∀ p ∈ players, p.id ≠ "" ∧ p.id ≠ "0") :
    ∃ prs flags, compute_pairings players = .ok (prs, flags) ∧
      (prs.flatMap occIds).Perm (players.map Player.id) ∧
      ∀ p ∈ players, prs.countP (fun pr => decide (p.id ∈ occIds pr)) = 1 := by
  have hpoolids : ∀ p ∈ poolOf players, p.id ≠ "" ∧ p.id ≠ "0" :=
    fun p hp => hids p ((poolOf_sublist players).subset hp)
  have hperm0 : ((lateOf players).map Player.id ++ (poolOf players).map Player.id).Perm
      (players.map Player.id) := by
    have := (lateOf_poolOf_perm players).map Player.id
    rwa [List.map_append] at this
  have main : ∃ prs flags, compute_pairings players = .ok (prs, flags) ∧
      (prs.flatMap occIds).Perm (players.map Player.id) := by
    rcases Nat.mod_two_eq_zero_or_one (poolOf players).length with h | h
    · obtain ⟨prs, hml, -, hperm⟩ := matchLoop_spec (poolOf players) hpoolids h
      refine ⟨_, _, compute_pairings_even players h hml, ?_⟩
      rw [List.flatMap_append, byes_flatMap_occIds]
      exact ((hperm.append_left _).trans hperm0)
    · have hpne : poolOf players ≠ [] := by
        intro he; rw [he] at h; simp at h
      obtain ⟨b, hsel, hbmem, -, -⟩ := select_bye_player_spec _ hpne
      have herase_ids : ∀ p ∈ (poolOf players).erase b, p.id ≠ "" ∧ p.id ≠ "0" :=
        fun p hp => hpoolids p ((List.erase_sublist _ _).subset hp)
      have herase_even : ((poolOf players).erase b).length % 2 = 0 := by
        rw [List.length_erase_of_mem hbmem]
        omega
      obtain ⟨prs, hml, -, hperm⟩ := matchLoop_spec _ herase_ids herase_even
      refine ⟨_, _, compute_pairings_odd players h hsel hml, ?_⟩
      rw [List.flatMap_append, byes_flatMap_occIds, List.flatMap_cons, occIds_init_bye]
      have hpool : (b.id :: ((poolOf players).erase b).map Player.id).Perm
          ((poolOf players).map Player.id) :=
        ((List.perm_cons_erase hbmem).map Player.id).symm
      have hstep : (b.id :: prs.flatMap occIds).Perm ((poolOf players).map Player.id) :=
        (hperm.cons b.id).trans hpool
      exact ((hstep.append_left ((lateOf players).map Player.id)).trans hperm0)
  obtain ⟨prs, flags, hok, hperm⟩ := main
  refine ⟨prs, flags, hok, hperm, ?_⟩
  intro p hp
  have hcount : (players.map Player.id).count p.id = 1 :=
    List.count_eq_one_of_mem huniq (List.mem_map_of_mem Player.id hp)
  exact countP_occ_of_count_flatMap prs p.id (hperm.count_eq p.id ▸ hcount)

/-- C2 (amended): provided no player id is `""` or `"0"`, every `Pairing`
emitted by the engine has `is_bye` true iff its black id is absent (empty),
and a nonempty white id. -/
theorem pairing_invariant_amended (players : List Player)
    (hids : ∀ p ∈ players, p.id ≠ "" ∧ p.id ≠ "0")
    (prs : List Pairing) (flags : List String)
    (h : compute_pairings players = .ok (prs, flags)) :
    ∀ pr ∈ prs, (pr.is_bye = true ↔ pr.black = "") ∧ pr.white ≠ "" := by
  have hlate : ∀ pr ∈ (lateOf players).map (fun p => Pairing.init p.id),
      (pr.is_bye = true ↔ pr.black = "") ∧ pr.white ≠ "" := by
    intro pr hpr
    obtain ⟨p, hp, he⟩ := List.mem_map.mp hpr
    subst he
    exact ⟨by simp [Pairing.init],
      (hids p ((lateOf_sublist players).subset hp)).1⟩
  have hmatch : ∀ (pool : List Player) (mprs : List Pairing),
      pool.Sublist players → matchLoop pool = .ok mprs →
      ∀ pr ∈ mprs, (pr.is_bye = true ↔ pr.black = "") ∧ pr.white ≠ "" := by
    intro pool mprs hsub hml pr hpr
    obtain ⟨w, bl, hw, hbl, he⟩ := matchLoop_mem pool mprs hml pr hpr
    subst he
    have hwid := hids w (hsub.subset hw)
    have hblid := hids bl (hsub.subset hbl)
    constructor
    · rw [Pairing.init_is_bye_false hblid.1 hblid.2]
      exact ⟨fun hfalse => (Bool.false_ne_true hfalse).elim,
        fun hbl0 => absurd hbl0 hblid.1⟩
    · exact hwid.1
  rcases Nat.mod_two_eq_zero_or_one (poolOf players).length with hpar | hpar
  · obtain ⟨mprs, hml⟩ := matchLoop_ok (poolOf players)
    have := compute_pairings_even players hpar hml
    rw [this] at h
    injection h with h2
    injection h2 with h3 h4
    subst h3
    intro pr hpr
    rcases List.mem_append.mp hpr with hh | hh
    · exact hlate pr hh
    · exact hmatch _ _ (poolOf_sublist players) hml pr hh
  · have hpne : poolOf players ≠ [] := by
      intro he; rw [he] at hpar; simp at hpar
    obtain ⟨b, hsel, hbmem, -, -⟩ := select_bye_player_spec _ hpne
    obtain ⟨mprs, hml⟩ := matchLoop_ok ((poolOf players).erase b)
    have := compute_pairings_odd players hpar hsel hml
    rw [this] at h
    injection h with h2
    injection h2 with h3 h4
    subst h3
    intro pr hpr
    rcases List.mem_append.mp hpr with hh | hh
    · exact hlate pr hh
    · rcases List.mem_cons.mp hh with hh2 | hh2
      · subst hh2
        refine ⟨by simp [Pairing.init], ?_⟩
        exact (hids b ((poolOf_sublist players).subset hbmem)).1
      · exact hmatch _ _ ((List.erase_sublist _ _).trans (poolOf_sublist players))
          hml pr hh2

/-- C3 (amended): provided no player id is `""` or `"0"`, the number of bye
pairings plus twice the number of decided pairings equals the number of
players in the snapshot. -/
theorem parity_amended (players : List Player)
    (hids : ∀ p ∈ players, p.id ≠ "" ∧ p.id ≠ "0") :
    ∃ prs flags, compute_pairings players = .ok (prs, flags) ∧
      prs.countP (fun pr => pr.is_bye) + 2 * prs.countP (fun pr => !pr.is_bye)
        = players.length := by
  have hpoolids : ∀ p ∈ poolOf players, p.id ≠ "" ∧ p.id ≠ "0" :=
    fun p hp => hids p ((poolOf_sublist players).subset hp)
  have hlen : (lateOf players).length + (poolOf players).length = players.length := by
    have := (lateOf_poolOf_perm players).length_eq
    rwa [List.length_append] at this
  have hlateCount : ∀ (l : List Player),
      (l.map (fun p => Pairing.init p.id)).countP (fun pr => pr.is_bye) = l.length ∧
      (l.map (fun p => Pairing.init p.id)).countP (fun pr => !pr.is_bye) = 0 := by
    intro l
    constructor
    · rw [← List.length_map l (fun p => Pairing.init p.id)]
      rw [List.countP_eq_length]
      intro pr hpr
      obtain ⟨p, -, he⟩ := List.mem_map.mp hpr
      subst he
      exact Pairing.init_is_bye_true p.id
    · rw [List.countP_eq_zero]
      intro pr hpr
      obtain ⟨p, -, he⟩ := List.mem_map.mp hpr
      subst he
      simp [Pairing.init_is_bye_true p.id]
  have hmatchCount : ∀ (pool : List Player) (mprs : List Pairing),
      (∀ pr ∈ mprs, pr.is_bye = false) →
      (mprs.flatMap occIds).Perm (pool.map Player.id) →
      mprs.countP (fun pr => pr.is_bye) = 0 ∧
      2 * mprs.countP (fun pr => !pr.is_bye) = pool.length := by
    intro pool mprs hf hperm
    have h2 : mprs.countP (fun pr => !pr.is_bye) = mprs.length := by
      rw [List.countP_eq_length]
      intro pr hpr
      simp [hf pr hpr]
    have h3 := hperm.length_eq
    rw [flatMap_occIds_length mprs hf, List.length_map] at h3
    refine ⟨?_, by omega⟩
    rw [List.countP_eq_zero]
    intro pr hpr
    simp [hf pr hpr]
  rcases Nat.mod_two_eq_zero_or_one (poolOf players).length with h | h
  · obtain ⟨mprs, hml, hf, hperm⟩ := matchLoop_spec (poolOf players) hpoolids h
    obtain ⟨hc1, hc2⟩ := hmatchCount _ _ hf hperm
    refine ⟨_, _, compute_pairings_even players h hml, ?_⟩
    rw [List.countP_append, List.countP_append, (hlateCount _).1, (hlateCount _).2,
      hc1]
    omega
  · have hpne : poolOf players ≠ [] := by
      intro he; rw [he] at h; simp at h
    obtain ⟨b, hsel, hbmem, -, -⟩ := select_bye_player_spec _ hpne
    have herase_even : ((poolOf players).erase b).length % 2 = 0 := by
      rw [List.length_erase_of_mem hbmem]; omega
    obtain ⟨mprs, hml, hf, hperm⟩ := matchLoop_spec _
      (fun p hp => hpoolids p ((List.erase_sublist _ _).subset hp)) herase_even
    obtain ⟨hc1, hc2⟩ := hmatchCount _ _ hf hperm
    have herase_len : ((poolOf players).erase b).length + 1 = (poolOf players).length := by
      rw [List.length_erase_of_mem hbmem]
      have : 0 < (poolOf players).length := List.length_pos.mpr hpne
      omega
    refine ⟨_, _, compute_pairings_odd players h hsel hml, ?_⟩
    rw [List.countP_append, List.countP_append, (hlateCount _).1, (hlateCount _).2]
    rw [List.countP_cons, List.countP_cons, hc1]
    simp only [Pairing.init_is_bye_true, Bool.not_true, if_true, if_false,
      Bool.false_eq_true, reduceIte]
    omega

/-- C4: when the post-late-joiner pool has odd size, the odd-pool bye goes to
the worst-ranked (numerically largest rank) pool member among those whose
`has_bye` flag is false, falling back to the worst-ranked pool member overall
only when every pool member has already had a bye; the bye pairing is emitted
right after the late-joiner byes and the recipient's `has_bye` flag is set. -/
theorem odd_pool_bye_spec (players : List Player)
    (hodd : (poolOf players).length % 2 = 1) :
    ∃ b prs, select_bye_player (poolOf players) = some b ∧ b ∈ poolOf players ∧
      ((∃ p ∈ poolOf players, p.has_bye = false) →
        b.has_bye = false ∧
        ∀ q ∈ poolOf players, q.has_bye = false → q.rank ≤ b.rank) ∧
      ((∀ p ∈ poolOf players, p.has_bye = true) →
        ∀ q ∈ poolOf players, q.rank ≤ b.rank) ∧
      compute_pairings players =
        .ok ((lateOf players).map (fun p => Pairing.init p.id) ++
              Pairing.init b.id :: prs,
             (lateOf players).map Player.id ++ [b.id]) := by
  have hpne : poolOf players ≠ [] := by
    intro he; rw [he] at hodd; simp at hodd
  obtain ⟨b, hsel, hbmem, hfair, hall⟩ := select_bye_player_spec _ hpne
  obtain ⟨prs, hml⟩ := matchLoop_ok ((poolOf players).erase b)
  exact ⟨b, prs, hsel, hbmem, hfair, hall,
    compute_pairings_odd players hodd hsel hml⟩

/-- A concrete three-player snapshot (odd pool, no late joiners, nobody
byed yet) used to witness hypothesis-bearing theorems. -/
def threeFresh : List Player :=
  [{ id := "A", rating := 1600, score := 0, color_history := [],
     opponents := [], rank := 0, has_bye := false },
   { id := "B", rating := 1500, score := 0, color_history := [],
     opponents := [], rank := 0, has_bye := false },
   { id := "C", rating := 1400, score := 0, color_history := [],
     opponents := [], rank := 0, has_bye := false }]

theorem odd_pool_bye_spec_witness :
    ∃ b prs,
      select_bye_player (poolOf (update_ranks threeFresh)) = some b ∧
      b ∈ poolOf (update_ranks threeFresh) ∧
      ((∃ p ∈ poolOf (update_ranks threeFresh), p.has_bye = false) →
        b.has_bye = false ∧
        ∀ q ∈ poolOf (update_ranks threeFresh), q.has_bye = false →
          q.rank ≤ b.rank) ∧
      ((∀ p ∈ poolOf (update_ranks threeFresh), p.has_bye = true) →
        ∀ q ∈ poolOf (update_ranks threeFresh), q.rank ≤ b.rank) ∧
      compute_pairings (update_ranks threeFresh) =
        .ok ((lateOf (update_ranks threeFresh)).map (fun p => Pairing.init p.id)
               ++ Pairing.init b.id :: prs,
             (lateOf (update_ranks threeFresh)).map Player.id ++ [b.id]) :=
  odd_pool_bye_spec (update_ranks threeFresh) (by decide)

/-- C5: every player with strictly fewer games played than the snapshot
maximum is removed from the matching pool, has its `has_bye` flag set, and
receives a bye `Pairing`; these late-joiner byes are the first pairings
emitted, in the snapshot's rank order (the order of the ranked player list
produced by `update_ranks`). -/
theorem late_joiner_byes_spec (players : List Player) :
    ∃ prs flags, compute_pairings (update_ranks players) = .ok (prs, flags) ∧
      prs.take (lateOf (update_ranks players)).length
        = (lateOf (update_ranks players)).map (fun p => Pairing.init p.id) ∧
      flags.take (lateOf (update_ranks players)).length
        = (lateOf (update_ranks players)).map Player.id ∧
      ∀ p ∈ update_ranks players,
        p.color_history.length < maxGames (update_ranks players) →
        p ∈ lateOf (update_ranks players) ∧ p.id ∈ flags ∧
        Pairing.init p.id ∈ prs ∧ p ∉ poolOf (update_ranks players) := by
  have hmem : ∀ (prs : List Pairing) (flags : List String),
      ((lateOf (update_ranks players)).map (fun p => Pairing.init p.id)).Sublist prs →
      ((lateOf (update_ranks players)).map Player.id).Sublist flags →
      ∀ p ∈ update_ranks players,
        p.color_history.length < maxGames (update_ranks players) →
        p ∈ lateOf (update_ranks players) ∧ p.id ∈ flags ∧
        Pairing.init p.id ∈ prs ∧ p ∉ poolOf (update_ranks players) := by
    intro prs flags hsubp hsubf p hp hcond
    have hlate : p ∈ lateOf (update_ranks players) :=
      List.mem_filter.mpr ⟨hp, by simpa using hcond⟩
    refine ⟨hlate, hsubf.subset (List.mem_map_of_mem Player.id hlate),
      hsubp.subset (List.mem_map_of_mem _ hlate), ?_⟩
    intro hpool
    have := (List.mem_filter.mp hpool).2
    simp [hcond] at this
  rcases Nat.mod_two_eq_zero_or_one (poolOf (update_ranks players)).length with h | h
  · obtain ⟨mprs, hml⟩ := matchLoop_ok (poolOf (update_ranks players))
    refine ⟨_, _, compute_pairings_even _ h hml, ?_, ?_, ?_⟩
    · exact List.take_left' (by rw [List.length_map])
    · rw [← List.length_map (lateOf (update_ranks players)) Player.id,
        List.take_length]
    · exact hmem _ _ (List.sublist_append_left _ _) (List.Sublist.refl _)
  · have hpne : poolOf (update_ranks players) ≠ [] := by
      intro he; rw [he] at h; simp at h
    obtain ⟨b, hsel, -, -, -⟩ := select_bye_player_spec _ hpne
    obtain ⟨mprs, hml⟩ := matchLoop_ok ((poolOf (update_ranks players)).erase b)
    refine ⟨_, _, compute_pairings_odd _ h hsel hml, ?_, ?_, ?_⟩
    · exact List.take_left' (by rw [List.length_map])
    · exact List.take_left' (by rw [List.length_map])
    · exact hmem _ _ (List.sublist_append_left _ _) (List.sublist_append_left _ _)

/-- A two-player snapshot where `"E"` has one game fewer than `"D"`:
`"E"` is a late joiner. -/
def lateSnap : List Player :=
  [{ id := "D", rating := 1600, score := 1, color_history := ["white"],
     opponents := ["X"], rank := 0, has_bye := false },
   { id := "E", rating := 1500, score := 0, color_history := [],
     opponents := [], rank := 0, has_bye := false }]

theorem late_joiner_byes_spec_witness :
    ∃ prs flags, compute_pairings (update_ranks lateSnap) = .ok (prs, flags) ∧
      prs.take (lateOf (update_ranks lateSnap)).length
        = (lateOf (update_ranks lateSnap)).map (fun p => Pairing.init p.id) ∧
      flags.take (lateOf (update_ranks lateSnap)).length
        = (lateOf (update_ranks lateSnap)).map Player.id ∧
      ∀ p ∈ update_ranks lateSnap,
        p.color_history.length < maxGames (update_ranks lateSnap) →
        p ∈ lateOf (update_ranks lateSnap) ∧ p.id ∈ flags ∧
        Pairing.init p.id ∈ prs ∧ p ∉ poolOf (update_ranks lateSnap) :=
  late_joiner_byes_spec lateSnap

/-- C7: in a decided pair `(A, B)` (anchor first) the player with the
strictly greater colour balance gets black; on equal balances the
higher-rated player gets white; on equal balances and ratings the anchor `A`
gets white.  `assign_colors` returns `(white, black)`. -/
theorem assign_colors_spec (p1 p2 : Player) :
    (p1.color_balance < p2.color_balance → assign_colors p1 p2 = (p1, p2)) ∧
    (p2.color_balance < p1.color_balance → assign_colors p1 p2 = (p2, p1)) ∧
    (p1.color_balance = p2.color_balance → p2.rating < p1.rating →
      assign_colors p1 p2 = (p1, p2)) ∧
    (p1.color_balance = p2.color_balance → p1.rating < p2.rating →
      assign_colors p1 p2 = (p2, p1)) ∧
    (p1.color_balance = p2.color_balance → p1.rating = p2.rating →
      assign_colors p1 p2 = (p1, p2)) := by
  unfold assign_colors
  refine ⟨fun h => ?_, fun h => ?_, fun h h2 => ?_, fun h h2 => ?_, fun h h2 => ?_⟩
  · rw [if_neg (by omega), if_pos h]
  · rw [if_pos h]
  · rw [if_neg (by omega), if_neg (by omega), if_pos (by omega)]
  · rw [if_neg (by omega), if_neg (by omega), if_neg (by omega)]
  · rw [if_neg (by omega), if_neg (by omega), if_pos (by omega)]

/-- A player whose colour history is a single black game (balance `-1`). -/
def pMoreBlacks : Player :=
  { id := "MB", rating := 1500, score := 1, color_history := ["black"],
    opponents := ["X"], rank := 0, has_bye := false }

/-- A player whose colour history is a single white game (balance `+1`). -/
def pMoreWhites : Player :=
  { id := "MW", rating := 1500, score := 1, color_history := ["white"],
    opponents := ["Y"], rank := 0, has_bye := false }

theorem assign_colors_spec_witness :
    assign_colors pMoreBlacks pMoreWhites = (pMoreBlacks, pMoreWhites) :=
  (assign_colors_spec pMoreBlacks pMoreWhites).1 (by decide)

/-- C8: the algorithm-error branch (`raise Exception(...)` with the anchor's
id, modelled as `Except.error` of the anchor's id) is unreachable:
`find_best_opponent` always succeeds on a nonempty candidate list thanks to
the rematch fallback, hence the matching loop never errors and
`compute_pairings` succeeds on every snapshot. -/
theorem algorithm_error_unreachable (players : List Player) :
    (∀ p1 c cs, ∃ b, find_best_opponent p1 (c :: cs) = some b) ∧
    (∀ pool, ∃ prs, matchLoop pool = .ok prs) ∧
    (∃ r, compute_pairings players = .ok r) := by
  refine ⟨fun p1 c cs => ?_, matchLoop_ok, ?_⟩
  · obtain ⟨b, hb, -, -⟩ := find_best_opponent_spec p1 (c :: cs) (List.cons_ne_nil _ _)
    exact ⟨b, hb⟩
  · rcases Nat.mod_two_eq_zero_or_one (poolOf players).length with h | h
    · obtain ⟨prs, hml⟩ := matchLoop_ok (poolOf players)
      exact ⟨_, compute_pairings_even players h hml⟩
    · have hpne : poolOf players ≠ [] := by
        intro he; rw [he] at h; simp at h
      obtain ⟨b, hsel, -, -, -⟩ := select_bye_player_spec _ hpne
      obtain ⟨prs, hml⟩ := matchLoop_ok ((poolOf players).erase b)
      exact ⟨_, compute_pairings_odd players h hsel hml⟩


/-- C6: in a matching step with anchor `p1` and current pool tail `cands`,
the chosen opponent is drawn from the history-excluded candidate set unless
that set is empty (rematch fallback); among the allowed candidates it has
the minimal absolute score difference from the anchor, and any allowed
candidate occurring earlier in the pool order has a strictly larger
difference (stable tie-break).  The final conjunct ties the choice to the
matching loop: the loop's next emitted pairing is built from exactly this
opponent. -/
theorem matching_step_spec (p1 : Player) (cands : List Player) (hne : cands ≠ [])
    (hnd : cands.Nodup) :
    ∃ b, find_best_opponent p1 cands = some b ∧
      b ∈ allowed_opponents p1 cands ∧
      ((∃ q ∈ cands, p1.opponents.contains q.id = false) →
        p1.opponents.contains b.id = false) ∧
      (∀ q ∈ allowed_opponents p1 cands,
        |b.score - p1.score| ≤ |q.score - p1.score|) ∧
      (∀ q, [q, b].Sublist (allowed_opponents p1 cands) →
        |b.score - p1.score| < |q.score - p1.score|) ∧
      (∀ prs, matchLoop (p1 :: cands) = .ok prs →
        ∃ rest, prs = Pairing.init (assign_colors p1 b).1.id
          (assign_colors p1 b).2.id :: rest) := by
  obtain ⟨b, hb, hmem, hmin⟩ := find_best_opponent_spec p1 cands hne
  have hndA : (allowed_opponents p1 cands).Nodup := by
    unfold allowed_opponents
    by_cases hv : (valid_opponents p1 cands).isEmpty
    · simpa [hv] using hnd
    · simp only [hv, if_neg, if_false]
      exact hnd.filter _
  have hAne : allowed_opponents p1 cands ≠ [] := allowed_opponents_ne_nil _ _ hne
  have hb' : ((allowed_opponents p1 cands).insertionSort (scoreRel p1)).head? = some b := by
    have hx := hb
    unfold find_best_opponent at hx
    rwa [if_neg (by simpa [List.isEmpty_iff] using hAne)] at hx
  obtain ⟨t, hbt⟩ : ∃ t,
      (allowed_opponents p1 cands).insertionSort (scoreRel p1) = b :: t := by
    cases hs : (allowed_opponents p1 cands).insertionSort (scoreRel p1) with
    | nil => rw [hs] at hb'; cases hb'
    | cons x xs =>
      rw [hs] at hb'
      injection hb' with hxb
      exact ⟨xs, by rw [hxb]⟩
  refine ⟨b, hb, hmem, ?_, hmin, ?_, ?_⟩
  · rintro ⟨q, hq, hqc⟩
    have hqv : q ∈ valid_opponents p1 cands :=
      List.mem_filter.mpr ⟨hq, by simpa using hqc⟩
    have hvne : ¬(valid_opponents p1 cands).isEmpty = true := by
      rw [List.isEmpty_iff]
      intro he
      rw [he] at hqv
      cases hqv
    have hA : allowed_opponents p1 cands = valid_opponents p1 cands := by
      unfold allowed_opponents
      rw [if_neg hvne]
    have hbv : b ∈ valid_opponents p1 cands := hA ▸ hmem
    have hcb := (List.mem_filter.mp hbv).2
    simpa using hcb
  · intro q hsub
    by_contra hlt
    have hle : |q.score - p1.score| ≤ |b.score - p1.score| := le_of_not_lt hlt
    have hpair : [q, b].Sublist
        ((allowed_opponents p1 cands).insertionSort (scoreRel p1)) :=
      List.pair_sublist_insertionSort hle hsub
    rw [hbt] at hpair
    have hqne : q ≠ b := by
      have hnd2 : [q, b].Nodup := hndA.sublist hsub
      intro he
      rw [he] at hnd2
      simp at hnd2
    have hnds : (b :: t).Nodup := by
      rw [← hbt]
      exact (List.perm_insertionSort (scoreRel p1) _).nodup_iff.mpr hndA
    cases hpair with
    | cons _ h2 =>
      exact (List.nodup_cons.mp hnds).1 (h2.subset (by simp))
    | cons₂ _ h2 => exact hqne rfl
  · intro prs hml
    cases cands with
    | nil => exact absurd rfl hne
    | cons c cs =>
      simp only [matchLoop, hb] at hml
      cases hrec : matchLoop ((c :: cs).erase b) with
      | error e => rw [hrec] at hml; cases hml
      | ok rest =>
        rw [hrec] at hml
        injection hml with h2
        exact ⟨rest, h2.symm⟩

theorem matching_step_spec_witness :
    ∃ b, find_best_opponent pMoreBlacks [pMoreWhites] = some b ∧
      b ∈ allowed_opponents pMoreBlacks [pMoreWhites] ∧
      ((∃ q ∈ [pMoreWhites], pMoreBlacks.opponents.contains q.id = false) →
        pMoreBlacks.opponents.contains b.id = false) ∧
      (∀ q ∈ allowed_opponents pMoreBlacks [pMoreWhites],
        |b.score - pMoreBlacks.score| ≤ |q.score - pMoreBlacks.score|) ∧
      (∀ q, [q, b].Sublist (allowed_opponents pMoreBlacks [pMoreWhites]) →
        |b.score - pMoreBlacks.score| < |q.score - pMoreBlacks.score|) ∧
      (∀ prs, matchLoop (pMoreBlacks :: [pMoreWhites]) = .ok prs →
        ∃ rest, prs = Pairing.init (assign_colors pMoreBlacks b).1.id
          (assign_colors pMoreBlacks b).2.id :: rest) :=
  matching_step_spec pMoreBlacks [pMoreWhites] (by decide) (by decide)


/-! ## Concrete snapshots: counterexamples and witnesses -/

/-- A fresh player whose id is the string `"1"`. -/
def pOne : Player :=
  { id := "1", rating := 1600, score := 0, color_history := [], opponents := [],
    rank := 0, has_bye := false }

/-- A fresh player whose id is the string `"0"` — a perfectly legal opaque id,
but also the value `Pairing.__init__` interprets as "no opponent". -/
def pZero : Player :=
  { id := "0", rating := 1500, score := 0, color_history := [], opponents := [],
    rank := 0, has_bye := false }

/-- Running the engine on the two-player snapshot `["1", "0"]`: the single
decided pairing gets black id `"0"` and is therefore (mis)labelled a bye. -/
theorem compute_run_pZero :
    compute_pairings [pOne, pZero] = .ok ([Pairing.init "1" "0"], []) := by
  have hpool : poolOf [pOne, pZero] = [pOne, pZero] := rfl
  have hlate : lateOf [pOne, pZero] = [] := rfl
  have h1 : find_best_opponent pOne [pZero] = some pZero := rfl
  have hml : matchLoop [pOne, pZero] = .ok [Pairing.init "1" "0"] := by
    simp [matchLoop, h1]
    rfl
  simp [compute_pairings, hpool, hlate, hml]

/-- Rank-1 player with the empty string as id (a legal unique opaque id). -/
def pEmptyTop : Player :=
  { id := "", rating := 1600, score := 2, color_history := [], opponents := [],
    rank := 1, has_bye := false }

/-- Rank-2 player `"X"` (outrated by `pEmptyTop`). -/
def pXmid : Player :=
  { id := "X", rating := 1500, score := 1, color_history := [], opponents := [],
    rank := 2, has_bye := false }

/-- Rank-3 (worst) player `"Y"`: the odd-pool bye recipient. -/
def pYlow : Player :=
  { id := "Y", rating := 1400, score := 0, color_history := [], opponents := [],
    rank := 3, has_bye := false }

/-- Rank-1 player `"X"` (higher-rated variant). -/
def pXtop : Player :=
  { id := "X", rating := 1600, score := 2, color_history := [], opponents := [],
    rank := 1, has_bye := false }

/-- Rank-2 player with the empty string as id (lower-rated variant). -/
def pEmptyMid : Player :=
  { id := "", rating := 1500, score := 1, color_history := [], opponents := [],
    rank := 2, has_bye := false }

/-- Run on `["", "X", "Y"]`: `"Y"` gets the odd-pool bye, then the decided
pair is emitted with the empty-id player as white. -/
theorem compute_run_emptyWhite :
    compute_pairings [pEmptyTop, pXmid, pYlow] =
      .ok ([Pairing.init "Y", Pairing.init "" "X"], ["Y"]) := by
  have hpool : poolOf [pEmptyTop, pXmid, pYlow] = [pEmptyTop, pXmid, pYlow] := rfl
  have hlate : lateOf [pEmptyTop, pXmid, pYlow] = [] := rfl
  have hsel : select_bye_player [pEmptyTop, pXmid, pYlow] = some pYlow := rfl
  have herase : [pEmptyTop, pXmid, pYlow].erase pYlow = [pEmptyTop, pXmid] := rfl
  have h1 : find_best_opponent pEmptyTop [pXmid] = some pXmid := rfl
  have hml : matchLoop [pEmptyTop, pXmid] = .ok [Pairing.init "" "X"] := by
    simp [matchLoop, h1]
    rfl
  simp [compute_pairings, hpool, hlate, hsel, herase, hml]
  exact ⟨rfl, rfl⟩

/-- Run on `["X", "", "Y"]`: `"Y"` gets the odd-pool bye, then the decided
pair is emitted with the empty-id player as black — so the decided pairing
is (mis)labelled a bye. -/
theorem compute_run_emptyBlack :
    compute_pairings [pXtop, pEmptyMid, pYlow] =
      .ok ([Pairing.init "Y", Pairing.init "X" ""], ["Y"]) := by
  have hpool : poolOf [pXtop, pEmptyMid, pYlow] = [pXtop, pEmptyMid, pYlow] := rfl
  have hlate : lateOf [pXtop, pEmptyMid, pYlow] = [] := rfl
  have hsel : select_bye_player [pXtop, pEmptyMid, pYlow] = some pYlow := rfl
  have herase : [pXtop, pEmptyMid, pYlow].erase pYlow = [pXtop, pEmptyMid] := rfl
  have h1 : find_best_opponent pXtop [pEmptyMid] = some pEmptyMid := rfl
  have hml : matchLoop [pXtop, pEmptyMid] = .ok [Pairing.init "X" ""] := by
    simp [matchLoop, h1]
    rfl
  simp [compute_pairings, hpool, hlate, hsel, herase, hml]
  exact ⟨rfl, rfl⟩

/-- C1 (counterexample): two unique-id snapshots on which coverage fails.
On `["1", "0"]` the single decided pairing is flagged `is_bye` because its
black id is `"0"`, so player `"0"` appears in no pairing as white, black of
a decided pairing, or bye subject.  On `["", "X", "Y"]`, even counting raw
`white` / `black` fields unconditionally, the empty-string id occurs in two
distinct pairings (as the placeholder black of the bye and as the white of
the decided pair), so it does not appear in exactly one pairing. -/
theorem coverage_counterexample :
    (([pOne, pZero].map Player.id).Nodup ∧
     compute_pairings [pOne, pZero] = .ok ([Pairing.init "1" "0"], []) ∧
     pZero.id ∈ [pOne, pZero].map Player.id ∧
     pZero.id ∉ [Pairing.init "1" "0"].flatMap occIds) ∧
    (([pEmptyTop, pXmid, pYlow].map Player.id).Nodup ∧
     compute_pairings [pEmptyTop, pXmid, pYlow] =
       .ok ([Pairing.init "Y", Pairing.init "" "X"], ["Y"]) ∧
     [Pairing.init "Y", Pairing.init "" "X"].countP
       (fun pr => pr.white == pEmptyTop.id || pr.black == pEmptyTop.id) = 2) :=
  ⟨⟨by decide, compute_run_pZero, by decide, by decide⟩,
   by decide, compute_run_emptyWhite, by decide⟩

/-- C2 (counterexample): on `["1", "0"]` the engine emits a pairing whose
`is_bye` is true although an opponent (black) id is present; on
`["", "X", "Y"]` it emits a pairing whose white id is the empty string. -/
theorem pairing_invariant_counterexample :
    (compute_pairings [pOne, pZero] = .ok ([Pairing.init "1" "0"], []) ∧
     (Pairing.init "1" "0").is_bye = true ∧ (Pairing.init "1" "0").black ≠ "") ∧
    (compute_pairings [pEmptyTop, pXmid, pYlow] =
       .ok ([Pairing.init "Y", Pairing.init "" "X"], ["Y"]) ∧
     (Pairing.init "" "X").white = "") :=
  ⟨⟨compute_run_pZero, by decide, by decide⟩, compute_run_emptyWhite, rfl⟩

/-- C3 (counterexample): for the snapshot `["1", "0"]` the emitted sequence
counts one bye pairing and no decided pairing, so byes + 2·decided = 1 ≠ 2 =
player count. -/
theorem parity_counterexample :
    (compute_pairings [pOne, pZero] = .ok ([Pairing.init "1" "0"], []) ∧
     [Pairing.init "1" "0"].countP (fun pr => pr.is_bye) +
       2 * [Pairing.init "1" "0"].countP (fun pr => !pr.is_bye)
       ≠ [pOne, pZero].length) ∧
    (compute_pairings [pXtop, pEmptyMid, pYlow] =
       .ok ([Pairing.init "Y", Pairing.init "X" ""], ["Y"]) ∧
     [Pairing.init "Y", Pairing.init "X" ""].countP (fun pr => pr.is_bye) +
       2 * [Pairing.init "Y", Pairing.init "X" ""].countP (fun pr => !pr.is_bye)
       ≠ [pXtop, pEmptyMid, pYlow].length) :=
  ⟨⟨compute_run_pZero, by decide⟩, compute_run_emptyBlack, by decide⟩

/-- A fresh player with id `"A"`. -/
def pA : Player :=
  { id := "A", rating := 1600, score := 0, color_history := [], opponents := [],
    rank := 0, has_bye := false }

/-- A fresh player with id `"B"`. -/
def pB : Player :=
  { id := "B", rating := 1500, score := 0, color_history := [], opponents := [],
    rank := 0, has_bye := false }

/-- Running the engine on the well-behaved snapshot `["A", "B"]`. -/
theorem compute_run_pAB :
    compute_pairings [pA, pB] = .ok ([Pairing.init "A" "B"], []) := by
  have hpool : poolOf [pA, pB] = [pA, pB] := rfl
  have hlate : lateOf [pA, pB] = [] := rfl
  have h1 : find_best_opponent pA [pB] = some pB := rfl
  have hml : matchLoop [pA, pB] = .ok [Pairing.init "A" "B"] := by
    simp [matchLoop, h1]
    rfl
  simp [compute_pairings, hpool, hlate, hml]

theorem coverage_amended_witness :
    ∃ prs flags, compute_pairings [pA, pB] = .ok (prs, flags) ∧
      (prs.flatMap occIds).Perm ([pA, pB].map Player.id) ∧
      ∀ p ∈ [pA, pB], prs.countP (fun pr => decide (p.id ∈ occIds pr)) = 1 :=
  coverage_amended [pA, pB] (by decide) (by decide)

theorem pairing_invariant_amended_witness :
    ((Pairing.init "A" "B").is_bye = true ↔ (Pairing.init "A" "B").black = "") ∧
    (Pairing.init "A" "B").white ≠ "" :=
  pairing_invariant_amended [pA, pB] (by decide) [Pairing.init "A" "B"] []
    compute_run_pAB (Pairing.init "A" "B") (List.mem_singleton.mpr rfl)

theorem parity_amended_witness :
    ∃ prs flags, compute_pairings [pA, pB] = .ok (prs, flags) ∧
      prs.countP (fun pr => pr.is_bye) + 2 * prs.countP (fun pr => !pr.is_bye)
        = [pA, pB].length :=
  parity_amended [pA, pB] (by decide)


/-! ## The loading layer (`Tournament.load_from_json` and the endpoint's
error mapping) -/

/-- The JSON scalar values relevant to the `id` / `rating` / `score` fields. -/
inductive JValue where
  | s (v : String)
  | n (v : Rat)
  | b (v : Bool)
  | null
deriving DecidableEq

/-- One raw player record, as handed to `Tournament.load_from_json`.  A
`none` field is an absent key (`player_data["…"]` raises `KeyError`); the
optional fields mirror `player_data.get(key, default)`. -/
structure PlayerRecord where
  id : Option JValue := none
  rating : Option JValue := none
  score : Option JValue := none
  color_history : Option (List String) := none
  opponents : Option (List String) := none
  has_bye : Option Bool := none
deriving DecidableEq

/-- The Python exceptions the loading layer can raise. -/
inductive PyError where
  | valueError (msg : String)
  | keyError (key : String)
  | typeError (msg : String)
deriving DecidableEq

/-- Python `str(x)` on the modelled JSON scalars (applied to the id). -/
def pyStr : JValue → String
  | .s v => v
  | .n v => if v.den == 1 then toString v.num else toString v
  | .b v => if v then "True" else "False"
  | .null => "None"

/-- Python `int(x)`: numbers truncate toward zero; strings must parse as an
optionally signed integer literal (modelled with `String.toInt?`), otherwise
`ValueError`; booleans coerce; `None` raises `TypeError`. -/
def pyInt : JValue → Except PyError Int
  | .n v => .ok (if 0 ≤ v then Rat.floor v else -(Rat.floor (-v)))
  | .s v =>
    match v.toInt? with
    | some n => .ok n
    | none => .error (.valueError ("invalid literal for int() with base 10: " ++ v))
  | .b v => .ok (if v then 1 else 0)
  | .null => .error (.typeError "int() argument must not be NoneType")

/-- A simplified decimal parser for Python `float(string)`: optional minus
sign, digits, optional fractional part. -/
def parseFloat? (s : String) : Option Rat :=
  let core := fun (t : String) =>
    match t.splitOn "." with
    | [a] => (a.toNat?).map (fun n => (n : Rat))
    | [a, b] =>
      match a.toNat?, b.toNat? with
      | some x, some y => some ((x : Rat) + (y : Rat) / ((10 : Rat) ^ b.length))
      | _, _ => none
    | _ => none
  if s.startsWith "-" then (core (s.drop 1)).map (fun q => -q)
  else core s

/-- Python `float(x)`: numbers pass through; strings must parse as a decimal
literal, otherwise `ValueError`; booleans coerce; `None` raises `TypeError`. -/
def pyFloat : JValue → Except PyError Rat
  | .n v => .ok v
  | .s v =>
    match parseFloat? v with
    | some q => .ok q
    | none => .error (.valueError ("could not convert string to float: " ++ v))
  | .b v => .ok (if v then 1 else 0)
  | .null => .error (.typeError "float() argument must not be NoneType")

/-- `player_data[key]`: the value, or `KeyError(key)` when the key is
absent. -/
def getField : Option JValue → String → Except PyError JValue
  | some v, _ => .ok v
  | none, k => .error (.keyError k)

/-- One `Player(...)` construction inside `Tournament.load_from_json`.
Evaluation follows the keyword-argument order of the source: `id` (indexing
then `str`), `rating` (indexing then `int`), `score` (indexing then
`float`), then the defaulted `.get` fields; the first exception wins. -/
def parsePlayer (r : PlayerRecord) : Except PyError Player :=
  match getField r.id "id" with
  | .error e => .error e
  | .ok idv =>
    match getField r.rating "rating" with
    | .error e => .error e
    | .ok rv =>
      match pyInt rv with
      | .error e => .error e
      | .ok rating =>
        match getField r.score "score" with
        | .error e => .error e
        | .ok sv =>
          match pyFloat sv with
          | .error e => .error e
          | .ok score =>
            .ok { id := pyStr idv, rating := rating, score := score,
                  color_history := r.color_history.getD [],
                  opponents := r.opponents.getD [],
                  rank := 0, has_bye := r.has_bye.getD false }

/-- The record loop of `load_from_json`: records are parsed in order and the
first exception aborts the whole construction. -/
def load_players : List PlayerRecord → Except PyError (List Player)
  | [] => .ok []
  | r :: rs =>
    match parsePlayer r with
    | .error e => .error e
    | .ok p =>
      match load_players rs with
      | .error e => .error e
      | .ok ps => .ok (p :: ps)

/-- `Tournament.load_from_json`: a missing top-level `players` key raises
`ValueError`; otherwise the records are parsed in order. -/
def load_from_json : Option (List PlayerRecord) → Except PyError (List Player)
  | none => .error (.valueError "JSON must contain players field")
  | some rs => load_players rs

/-- The error mapping of the `/pairings` endpoint (`generate_pairings`):
`ValueError` becomes a 400 input error, every other exception a 500 internal
error. -/
def errorStatus : PyError → Nat
  | .valueError _ => 400
  | .keyError _ => 500
  | .typeError _ => 500

/-- A required field is missing, or its value makes `int(…)` fail. -/
def missingOrBadInt (o : Option JValue) : Prop :=
  o = none ∨ ∃ v e, o = some v ∧ pyInt v = .error e

/-- A required field is missing, or its value makes `float(…)` fail. -/
def missingOrBadFloat (o : Option JValue) : Prop :=
  o = none ∨ ∃ v e, o = some v ∧ pyFloat v = .error e

/-- A record with a missing required field (`id`, `rating`, `score`) or a
malformed `rating` / `score` value. -/
def badRecord (r : PlayerRecord) : Prop :=
  r.id = none ∨ missingOrBadInt r.rating ∨ missingOrBadFloat r.score

theorem parsePlayer_error_of_bad (r : PlayerRecord) (h : badRecord r) :
    ∃ e, parsePlayer r = .error e := by
  unfold parsePlayer
  cases hid : r.id with
  | none => exact ⟨.keyError "id", rfl⟩
  | some idv =>
    cases hrat : r.rating with
    | none => exact ⟨.keyError "rating", rfl⟩
    | some rv =>
      cases hpi : pyInt rv with
      | error e => exact ⟨e, by simp only [getField, hpi]⟩
      | ok rating =>
        cases hsc : r.score with
        | none => exact ⟨.keyError "score", by simp only [getField, hpi]⟩
        | some sv =>
          cases hpf : pyFloat sv with
          | error e => exact ⟨e, by simp only [getField, hpi, hpf]⟩
          | ok score =>
            exfalso
            rcases h with h | h | h
            · rw [hid] at h; cases h
            · rcases h with h | ⟨v, e, hv, he⟩
              · rw [hrat] at h; cases h
              · rw [hrat] at hv
                injection hv with hv
                rw [← hv, hpi] at he
                cases he
            · rcases h with h | ⟨v, e, hv, he⟩
              · rw [hsc] at h; cases h
              · rw [hsc] at hv
                injection hv with hv
                rw [← hv, hpf] at he
                cases he

theorem load_players_error (rs : List PlayerRecord) (r : PlayerRecord)
    (hr : r ∈ rs) (e : PyError) (he : parsePlayer r = .error e) :
    ∃ e2, load_players rs = .error e2 := by
  induction rs with
  | nil => cases hr
  | cons r0 rs ih =>
    unfold load_players
    cases h0 : parsePlayer r0 with
    | error e0 => exact ⟨e0, rfl⟩
    | ok p =>
      rcases List.mem_cons.mp hr with hh | hh
      · rw [hh] at he; rw [he] at h0; cases h0
      · obtain ⟨e2, h2⟩ := ih hh
        exact ⟨e2, by simp only [h2]⟩

/-- A record whose required `rating` key is absent. -/
def recMissingRating : PlayerRecord :=
  { id := some (.s "A"), score := some (.n 1) }

/-- C9 (counterexample): a record collection with a record missing the
required `rating` field makes snapshot construction fail with a `KeyError`
(naming the field), which the `/pairings` endpoint surfaces as a 500
internal error — not as the 400 input error (`ValueError`) the claim
requires. -/
theorem input_error_counterexample :
    load_from_json (some [recMissingRating]) = .error (.keyError "rating") ∧
    errorStatus (.keyError "rating") ≠ 400 ∧
    errorStatus (.valueError "x") = 400 :=
  ⟨rfl, by decide, rfl⟩

/-- C9 (amended): snapshot construction over a record collection containing
a record with a missing required field or a malformed numeric value always
fails with some exception, returning no snapshot; a missing field fails
with a `KeyError` naming the field (a 500 internal error at the endpoint,
not an input error), and a malformed (non-numeric) string rating fails with
a `ValueError` naming the offending literal rather than the field. -/
theorem input_error_amended (rs : List PlayerRecord)
    (h : ∃ r ∈ rs, badRecord r) :
    (∃ e, load_from_json (some rs) = .error e) ∧
    (∀ r : PlayerRecord, r.id = none → parsePlayer r = .error (.keyError "id")) ∧
    (∀ (r : PlayerRecord) (v : JValue), r.id = some v → r.rating = none →
      parsePlayer r = .error (.keyError "rating")) ∧
    (∀ (r : PlayerRecord) (v : JValue) (s : String), r.id = some v →
      r.rating = some (.s s) → s.toInt? = none →
      parsePlayer r = .error (.valueError
        ("invalid literal for int() with base 10: " ++ s))) := by
  refine ⟨?_, ?_, ?_, ?_⟩
  · obtain ⟨r, hr, hbad⟩ := h
    obtain ⟨e, he⟩ := parsePlayer_error_of_bad r hbad
    obtain ⟨e2, h2⟩ := load_players_error rs r hr e he
    exact ⟨e2, by simp only [load_from_json, h2]⟩
  · intro r hid
    unfold parsePlayer
    rw [hid]
    rfl
  · intro r v hid hrat
    unfold parsePlayer
    rw [hid, hrat]
    rfl
  · intro r v s hid hrat hs
    unfold parsePlayer
    rw [hid, hrat]
    simp only [getField, pyInt, hs]

theorem input_error_amended_witness :
    (∃ e, load_from_json (some [recMissingRating]) = .error e) ∧
    (∀ r : PlayerRecord, r.id = none → parsePlayer r = .error (.keyError "id")) ∧
    (∀ (r : PlayerRecord) (v : JValue), r.id = some v → r.rating = none →
      parsePlayer r = .error (.keyError "rating")) ∧
    (∀ (r : PlayerRecord) (v : JValue) (s : String), r.id = some v →
      r.rating = some (.s s) → s.toInt? = none →
      parsePlayer r = .error (.valueError
        ("invalid literal for int() with base 10: " ++ s))) :=
  input_error_amended [recMissingRating]
    ⟨recMissingRating, List.mem_singleton.mpr rfl,
      Or.inr (Or.inl (Or.inl rfl))⟩

end Swiss
